import Mathlib

/-!
# Verification of the `cgbi` PNG ↔ CgBI converter

Shallow embedding of the TypeScript sources of the `cgbi` package (the
converter module and `src/lib/zlib.ts`).  Byte buffers (`Uint8Array`) are modelled as `List Nat`;
the external compression codec (pako, wrapped by `src/lib/zlib.ts`) and the
CRC-32 helper (`src/lib/crc.js`) are out-of-scope external collaborators and
are passed as explicit parameters, mirroring their import boundary.

JavaScript `Uint8Array` semantics that matter here:
* `subarray(a, b)` clamps both indices to the buffer, never throws;
* an indexed write out of range is silently dropped;
* an indexed read out of range yields `undefined`, which coerces to `0`
  when stored back into a typed array;
* `new Uint8Array(n)` is zero-initialised.
-/

/-- A byte buffer (`Uint8Array`).  Elements of real buffers satisfy `< 256`;
none of the verified code paths depend on that bound. -/
abbrev Bytes := List Nat

/-- `data.subarray(a, b)` with JavaScript clamping semantics. -/
def subarray (data : Bytes) (a b : Nat) : Bytes :=
  (data.drop a).take (b - a)

/-- `PNG_HEADER` from the converter module. -/
def PNG_HEADER : Bytes := [0x89, 0x50, 0x4e, 0x47, 0x0d, 0x0a, 0x1a, 0x0a]

/-- `CGBI_CHUNK` from the converter module. -/
def CGBI_CHUNK : Bytes := [0x00, 0x00, 0x00, 0x04, 0x43, 0x67, 0x42, 0x49]

/-- `CGBI_BGRA` from the converter module. -/
def CGBI_BGRA : Bytes := [0x50, 0x00, 0x20, 0x06, 0x2c, 0xb8, 0x77, 0x66]

/-- The chunk type tags compared against in `convert`. -/
def IHDR_TAG : Bytes := [0x49, 0x48, 0x44, 0x52]

def IDAT_TAG : Bytes := [0x49, 0x44, 0x41, 0x54]

def iDOT_TAG : Bytes := [0x69, 0x44, 0x4f, 0x54]

def IEND_TAG : Bytes := [0x49, 0x45, 0x4e, 0x44]

/-- The fixed canonical IEND chunk emitted at the end of `convert`. -/
def IEND_BYTES : Bytes :=
  [0x00, 0x00, 0x00, 0x00, 0x49, 0x45, 0x4e, 0x44, 0xae, 0x42, 0x60, 0x82]

/-- `isEquals` from the converter module: length check plus element-wise comparison,
i.e. structural equality of the byte sequences. -/
def isEquals (a b : Bytes) : Bool :=
  decide (a = b)

/-- `hasPngHeader` from the converter module. -/
def hasPngHeader (data : Bytes) : Bool :=
  isEquals (subarray data 0 8) PNG_HEADER

/-- `hasCgbiChunk` from the converter module (default offset 8). -/
def hasCgbiChunk (data : Bytes) (offset : Nat := 8) : Bool :=
  isEquals (subarray data offset (offset + 8)) CGBI_CHUNK

/-- `isStandardPng` from the converter module. -/
def isStandardPng (data : Bytes) : Bool :=
  hasPngHeader data && !hasCgbiChunk data

/-- `isCgbiPng` from the converter module. -/
def isCgbiPng (data : Bytes) : Bool :=
  hasPngHeader data && hasCgbiChunk data

/-- `toNumber` from the converter module: big-endian base-256 accumulation. -/
def toNumber (data : Bytes) : Nat :=
  data.foldl (fun result b => result * 256 + b) 0

/-- `toUint8Array` from the converter module: the loop writes `result[3] = n % 256`,
divides, then `result[2]`, `result[1]`, `result[0]`, producing exactly this
big-endian 4-byte list. -/
def toUint8Array (n : Nat) : Bytes :=
  [n / 16777216 % 256, n / 65536 % 256, n / 256 % 256, n % 256]

/-- The external compression codec (`src/lib/zlib.ts`): four byte-buffer
transforms that may fail, promisified pako calls. -/
structure Codec where
  deflate : Bytes → Except String Bytes
  deflateRaw : Bytes → Except String Bytes
  inflate : Bytes → Except String Bytes
  inflateRaw : Bytes → Except String Bytes

/-- One `{inflate, deflate}` entry of `byteSwapFunctionMap`. -/
structure CodecPair where
  inflate : Bytes → Except String Bytes
  deflate : Bytes → Except String Bytes

/-- `byteSwapFunctionMap` from the converter module: index 0 pairs raw-inflate with
zlib-deflate, index 1 pairs zlib-inflate with raw-deflate. -/
def byteSwapFunctionMap (c : Codec) : List CodecPair :=
  [⟨c.inflateRaw, c.deflate⟩, ⟨c.inflate, c.deflateRaw⟩]

/-- `a[i] = v` on a typed array: out-of-range writes are dropped. -/
def writeByte (a : Bytes) (i : Nat) (v : Nat) : Bytes :=
  a.set i v

/-- `a[i]` read from a typed array, as the value that ends up stored when the
result is written back into a typed array (`undefined` coerces to `0`). -/
def readByte (a : Bytes) (i : Nat) : Nat :=
  a.getD i 0

/-- Inner `for j` loop of `byteSwapIdat`: processes `j` four-byte pixels
starting at `offset`, returning the updated output buffer and offset. -/
def swapPixels (dec : Bytes) : Nat → Bytes → Nat → Bytes × Nat
  | 0, arr, offset => (arr, offset)
  | j + 1, arr, offset =>
      let a1 := writeByte arr offset (readByte dec (offset + 2))
      let a2 := writeByte a1 (offset + 1) (readByte dec (offset + 1))
      let a3 := writeByte a2 (offset + 2) (readByte dec offset)
      let a4 := writeByte a3 (offset + 3) (readByte dec (offset + 3))
      swapPixels dec j a4 (offset + 4)

/-- Outer `for i` loop of `byteSwapIdat`: per scanline, copy the filter byte
then swap `width` pixels. -/
def swapRows (dec : Bytes) (width : Nat) : Nat → Bytes → Nat → Bytes
  | 0, arr, _ => arr
  | i + 1, arr, offset =>
      let a1 := writeByte arr offset (readByte dec offset)
      let p := swapPixels dec width a1 (offset + 1)
      swapRows dec width i p.1 p.2

/-- The scanline walk of `byteSwapIdat`: a fresh zero buffer of the
decompressed length, written by the two nested loops. -/
def byteSwap (dec : Bytes) (width height : Nat) : Bytes :=
  swapRows dec width height (List.replicate dec.length 0) 0

/-- `byteSwapIdat` from the converter module: pick the codec pair by `isCgbi`,
inflate, run the scanline walk, deflate. -/
def byteSwapIdat (c : Codec) (idat : Bytes) (width height : Nat)
    (isCgbi : Bool) : Except String Bytes :=
  let pair := (byteSwapFunctionMap c).getD (if isCgbi then 0 else 1)
    ⟨c.inflate, c.deflate⟩
  match pair.inflate idat with
  | .error e => .error e
  | .ok decompressed => pair.deflate (byteSwap decompressed width height)

/-- One lowercase hex digit, as JavaScript `toString(16)` renders it:
`0`-`9` are code points 48-57, `a`-`f` are 97-102. -/
def hexDigit (n : Nat) : Char :=
  if n < 10 then Char.ofNat (48 + n) else Char.ofNat (87 + n)

/-- `byte.toString(16).padStart(2, "0")` for a byte value. -/
def byteToHex (b : Nat) : String :=
  String.mk [hexDigit (b / 16 % 16), hexDigit (b % 16)]

/-- The `while (reader.offset < data.length)` chunk-scan loop of `convert`.
Returns the list of raw byte runs pushed to `result` (one entry per
pass-through chunk, its length/tag/payload/CRC concatenated) and the list of
collected IDAT payloads.  The source loop advances the reader offset by at
least 12 bytes per iteration, so it performs at most `data.length` iterations;
the recursion is driven by an explicit iteration bound that `convert` sets
large enough (`data.length + 1`) to never be reached. -/
def scanChunks (data : Bytes) : Nat → Nat → List Bytes × List Bytes
  | 0, _ => ([], [])
  | fuel + 1, offset =>
      if offset < data.length then
        let lenB := subarray data offset (offset + 4)
        let tagB := subarray data (offset + 4) (offset + 8)
        let dataLen := toNumber lenB
        let chunkData := subarray data (offset + 8) (offset + 8 + dataLen)
        let crcB := subarray data (offset + 8 + dataLen) (offset + 12 + dataLen)
        if tagB = IDAT_TAG then
          let rest := scanChunks data fuel (offset + 12 + dataLen)
          (rest.1, chunkData :: rest.2)
        else if tagB = iDOT_TAG then
          scanChunks data fuel (offset + 12 + dataLen)
        else if tagB = IEND_TAG then
          ([], [])
        else
          let rest := scanChunks data fuel (offset + 12 + dataLen)
          ((lenB ++ tagB ++ chunkData ++ crcB) :: rest.1, rest.2)
      else ([], [])

/-- The CgBI-marker check `convert` performs: it reads 8 bytes at offset 8
and compares them (at offset 0 of the slice) with `CGBI_CHUNK`; on a match
the marker's 16 bytes are consumed and not re-emitted. -/
def cgbiDetected (data : Bytes) : Bool :=
  hasCgbiChunk (subarray data 8 16) 0

/-- The offset at which `convert` reads the IHDR chunk: 24 when the CgBI
marker was consumed (8 + 16), otherwise 8. -/
def chunksStart (data : Bytes) : Nat :=
  if cgbiDetected data then 24 else 8

/-- The IHDR length field (`headerLength`) as decoded by `convert`. -/
def ihdrLenField (data : Bytes) : Nat :=
  toNumber (subarray data (chunksStart data) (chunksStart data + 4))

/-- The IHDR type-tag bytes (`headerTypeRaw`) as read by `convert`. -/
def ihdrTypeRaw (data : Bytes) : Bytes :=
  subarray data (chunksStart data + 4) (chunksStart data + 8)

/-- The IHDR payload bytes (`headerData`) as read by `convert`. -/
def ihdrData (data : Bytes) : Bytes :=
  subarray data (chunksStart data + 8) (chunksStart data + 8 + ihdrLenField data)

/-- The offset at which the chunk-scan loop of `convert` starts (right after
the IHDR chunk's CRC). -/
def scanStart (data : Bytes) : Nat :=
  chunksStart data + 12 + ihdrLenField data

/-- The chunk scan `convert` performs: the raw byte runs of the pass-through
chunks and the collected IDAT payloads. -/
def scannedChunks (data : Bytes) : List Bytes × List Bytes :=
  scanChunks data (data.length + 1) (scanStart data)

/-- The image width `convert` extracts from the IHDR payload. -/
def imgWidth (data : Bytes) : Nat :=
  toNumber (subarray (ihdrData data) 0 4)

/-- The image height `convert` extracts from the IHDR payload. -/
def imgHeight (data : Bytes) : Nat :=
  toNumber (subarray (ihdrData data) 4 8)

/-- `convert` from the converter module, assembled from the reads above (each of
which mirrors one `reader.read`/comparison of the source, on the offsets the
sequential reader reaches).  The codec and `calculateCRC` are the external
collaborators, passed as parameters; `crc tag payload` stands for
`calculateCRC(tag, payload)`. -/
def convert (c : Codec) (crc : Bytes → Bytes → Nat) (data : Bytes) :
    Except String Bytes :=
  if hasPngHeader (subarray data 0 8) then
    if ihdrTypeRaw data = IHDR_TAG then
      match byteSwapIdat c (scannedChunks data).2.flatten (imgWidth data)
          (imgHeight data) (cgbiDetected data) with
      | .error e => .error e
      | .ok newIdat =>
          .ok (((if cgbiDetected data then [PNG_HEADER]
                 else [PNG_HEADER, CGBI_CHUNK, CGBI_BGRA]) ++
                [subarray data (chunksStart data) (chunksStart data + 4),
                 ihdrTypeRaw data, ihdrData data,
                 subarray data (chunksStart data + 8 + ihdrLenField data)
                   (chunksStart data + 12 + ihdrLenField data)] ++
                (scannedChunks data).1 ++
                [toUint8Array newIdat.length, IDAT_TAG, newIdat,
                 toUint8Array (crc IDAT_TAG newIdat), IEND_BYTES]).flatten)
    else
      .error ("Invalid PNG header: " ++
        String.intercalate " " ((ihdrTypeRaw data).map byteToHex))
  else
    .error "Data is not a PNG file."

/-! ## Basic lemmas about `getD`, `set`, `subarray` -/

theorem getD_zero_of_le (a : Bytes) (k : Nat) (h : a.length ≤ k) :
    a.getD k 0 = 0 := by
  simp [List.getD_eq_getElem?_getD, List.getElem?_eq_none h]

theorem getD_set (a : Bytes) (i k v : Nat) :
    (a.set i v).getD k 0 = if i = k ∧ i < a.length then v else a.getD k 0 := by
  simp only [List.getD_eq_getElem?_getD, List.getElem?_set]
  by_cases h1 : i = k
  · subst h1
    by_cases h2 : i < a.length
    · simp [h2]
    · simp [h2, List.getElem?_eq_none (Nat.le_of_not_lt h2)]
  · simp [h1]

theorem getD_replicate_zero (n k : Nat) :
    (List.replicate n (0 : Nat)).getD k 0 = 0 := by
  induction n generalizing k with
  | zero => simp [List.getD]
  | succ n ih =>
      cases k with
      | zero => simp
      | succ k => simp [List.replicate_succ, ih k]

/-! ## Pointwise characterisation of the pixel byte-swap loops -/

theorem swapPixels_length (dec : Bytes) :
    ∀ (j : Nat) (arr : Bytes) (off : Nat),
      ((swapPixels dec j arr off).1).length = arr.length := by
  intro j
  induction j with
  | zero => intro arr off; rfl
  | succ j ih =>
      intro arr off
      simp only [swapPixels]
      rw [ih]
      simp [writeByte]

theorem swapPixels_offset (dec : Bytes) :
    ∀ (j : Nat) (arr : Bytes) (off : Nat),
      (swapPixels dec j arr off).2 = off + 4 * j := by
  intro j
  induction j with
  | zero => intro arr off; simp [swapPixels]
  | succ j ih =>
      intro arr off
      simp only [swapPixels]
      rw [ih]
      omega

theorem swapPixels_getD_low (dec : Bytes) :
    ∀ (j : Nat) (arr : Bytes) (off k : Nat), k < off →
      ((swapPixels dec j arr off).1).getD k 0 = arr.getD k 0 := by
  intro j
  induction j with
  | zero => intro arr off k _; rfl
  | succ j ih =>
      intro arr off k hk
      simp only [swapPixels]
      rw [ih _ _ _ (by omega)]
      simp only [writeByte]
      rw [getD_set, if_neg (by omega), getD_set, if_neg (by omega),
          getD_set, if_neg (by omega), getD_set, if_neg (by omega)]

theorem swapPixels_getD_high (dec : Bytes) :
    ∀ (j : Nat) (arr : Bytes) (off k : Nat), off + 4 * j ≤ k →
      ((swapPixels dec j arr off).1).getD k 0 = arr.getD k 0 := by
  intro j
  induction j with
  | zero => intro arr off k _; rfl
  | succ j ih =>
      intro arr off k hk
      simp only [swapPixels]
      rw [ih _ _ _ (by omega)]
      simp only [writeByte]
      rw [getD_set, if_neg (by omega), getD_set, if_neg (by omega),
          getD_set, if_neg (by omega), getD_set, if_neg (by omega)]

theorem getD_pixelWrites (dec arr : Bytes) (off m : Nat) (hm : m < 4) :
    (writeByte (writeByte (writeByte (writeByte arr off (readByte dec (off + 2)))
        (off + 1) (readByte dec (off + 1))) (off + 2) (readByte dec off))
        (off + 3) (readByte dec (off + 3))).getD (off + m) 0 =
      if off + m < arr.length then
        (if m % 4 = 0 then readByte dec (off + m + 2)
         else if m % 4 = 2 then readByte dec (off + m - 2)
         else readByte dec (off + m))
      else 0 := by
  simp only [writeByte]
  interval_cases m <;>
    (rw [getD_set, getD_set, getD_set, getD_set]
     simp only [List.length_set, Nat.add_zero]
     split_ifs <;>
       first
         | rfl
         | contradiction
         | (exact getD_zero_of_le _ _ (by omega))
         | (exfalso; omega)
         | tauto)

theorem swapPixels_getD_mid (dec : Bytes) :
    ∀ (j : Nat) (arr : Bytes) (off m : Nat), m < 4 * j →
      ((swapPixels dec j arr off).1).getD (off + m) 0 =
        if off + m < arr.length then
          (if m % 4 = 0 then readByte dec (off + m + 2)
           else if m % 4 = 2 then readByte dec (off + m - 2)
           else readByte dec (off + m))
        else 0 := by
  intro j
  induction j with
  | zero => intro arr off m hm; omega
  | succ j ih =>
      intro arr off m hm
      simp only [swapPixels]
      by_cases h4 : m < 4
      · rw [swapPixels_getD_low dec j _ (off + 4) (off + m) (by omega)]
        exact getD_pixelWrites dec arr off m h4
      · have e0 : off + m = off + 4 + (m - 4) := by omega
        rw [e0, ih _ (off + 4) (m - 4) (by omega)]
        simp only [writeByte, List.length_set]
        have e1 : (m - 4) % 4 = m % 4 := by omega
        rw [e1, ← e0]

theorem swapRows_length (dec : Bytes) (w : Nat) :
    ∀ (i : Nat) (arr : Bytes) (off : Nat),
      (swapRows dec w i arr off).length = arr.length := by
  intro i
  induction i with
  | zero => intro arr off; rfl
  | succ i ih =>
      intro arr off
      simp only [swapRows]
      rw [ih, swapPixels_length]
      simp [writeByte]

theorem swapRows_getD_low (dec : Bytes) (w : Nat) :
    ∀ (i : Nat) (arr : Bytes) (off k : Nat), k < off →
      (swapRows dec w i arr off).getD k 0 = arr.getD k 0 := by
  intro i
  induction i with
  | zero => intro arr off k _; rfl
  | succ i ih =>
      intro arr off k hk
      simp only [swapRows]
      rw [swapPixels_offset, ih _ _ _ (by omega),
          swapPixels_getD_low dec w _ _ _ (by omega)]
      simp only [writeByte]
      rw [getD_set, if_neg (by omega)]

theorem swapRows_getD_high (dec : Bytes) (w : Nat) :
    ∀ (i : Nat) (arr : Bytes) (off k : Nat), off + i * (1 + 4 * w) ≤ k →
      (swapRows dec w i arr off).getD k 0 = arr.getD k 0 := by
  intro i
  induction i with
  | zero => intro arr off k _; rfl
  | succ i ih =>
      intro arr off k hk
      have es : (i + 1) * (1 + 4 * w) = i * (1 + 4 * w) + (1 + 4 * w) :=
        Nat.succ_mul _ _
      simp only [swapRows]
      rw [swapPixels_offset, ih _ _ _ (by omega),
          swapPixels_getD_high dec w _ _ _ (by omega)]
      simp only [writeByte]
      rw [getD_set, if_neg (by omega)]

theorem swapRows_getD_mid (dec : Bytes) (w : Nat) :
    ∀ (i : Nat) (arr : Bytes) (off q r : Nat), q < i → r < 1 + 4 * w →
      (swapRows dec w i arr off).getD (off + (1 + 4 * w) * q + r) 0 =
        if off + (1 + 4 * w) * q + r < arr.length then
          (if r = 0 then readByte dec (off + (1 + 4 * w) * q)
           else if (r - 1) % 4 = 0 then
             readByte dec (off + (1 + 4 * w) * q + r + 2)
           else if (r - 1) % 4 = 2 then
             readByte dec (off + (1 + 4 * w) * q + r - 2)
           else readByte dec (off + (1 + 4 * w) * q + r))
        else 0 := by
  intro i
  induction i with
  | zero => intro arr off q r hq hr; omega
  | succ i ih =>
      intro arr off q r hq hr
      simp only [swapRows]
      rw [swapPixels_offset]
      cases q with
      | zero =>
          simp only [Nat.mul_zero, Nat.add_zero]
          rw [swapRows_getD_low dec w i _ _ _ (by omega)]
          by_cases hr0 : r = 0
          · subst hr0
            simp only [Nat.add_zero]
            rw [swapPixels_getD_low dec w _ _ _ (by omega)]
            simp only [writeByte]
            rw [getD_set]
            by_cases hL : off < arr.length
            · simp [hL]
            · rw [if_neg (by omega), if_neg hL,
                  getD_zero_of_le _ _ (by omega)]
          · have e1 : off + r = (off + 1) + (r - 1) := by omega
            rw [e1, swapPixels_getD_mid dec w _ (off + 1) (r - 1) (by omega),
                ← e1]
            simp only [writeByte, List.length_set]
            rw [if_neg hr0]
      | succ q =>
          have e2m : (1 + 4 * w) * (q + 1) = (1 + 4 * w) * q + (1 + 4 * w) :=
            Nat.mul_succ _ _
          have e2 : off + (1 + 4 * w) * (q + 1) = (off + 1 + 4 * w) + (1 + 4 * w) * q := by
            omega
          have hL : ((swapPixels dec w (writeByte arr off (readByte dec off))
              (off + 1)).1).length = arr.length := by
            rw [swapPixels_length]
            simp [writeByte]
          rw [e2, ih _ (off + 1 + 4 * w) q r (by omega) hr, hL]

theorem byteSwap_length (dec : Bytes) (w h : Nat) :
    (byteSwap dec w h).length = dec.length := by
  simp [byteSwap, swapRows_length]

theorem byteSwap_getD_high (dec : Bytes) (w h k : Nat)
    (hk : h * (1 + 4 * w) ≤ k) :
    (byteSwap dec w h).getD k 0 = 0 := by
  unfold byteSwap
  rw [swapRows_getD_high dec w h _ 0 k (by omega), getD_replicate_zero]

theorem byteSwap_getD_mid (dec : Bytes) (w h q r : Nat) (hq : q < h)
    (hr : r < 1 + 4 * w) :
    (byteSwap dec w h).getD ((1 + 4 * w) * q + r) 0 =
      if (1 + 4 * w) * q + r < dec.length then
        (if r = 0 then readByte dec ((1 + 4 * w) * q)
         else if (r - 1) % 4 = 0 then readByte dec ((1 + 4 * w) * q + r + 2)
         else if (r - 1) % 4 = 2 then readByte dec ((1 + 4 * w) * q + r - 2)
         else readByte dec ((1 + 4 * w) * q + r))
      else 0 := by
  unfold byteSwap
  simpa using swapRows_getD_mid dec w h (List.replicate dec.length 0) 0 q r hq hr

theorem byteSwap_byteSwap (dec : Bytes) (w h : Nat)
    (hlen : dec.length = h * (1 + 4 * w)) :
    byteSwap (byteSwap dec w h) w h = dec := by
  have hs : (byteSwap dec w h).length = dec.length := byteSwap_length dec w h
  apply List.ext_getElem (by rw [byteSwap_length, hs])
  intro n h1 h2
  rw [← List.getD_eq_getElem (byteSwap (byteSwap dec w h) w h) 0 h1,
      ← List.getD_eq_getElem dec 0 h2]
  have hstride : 0 < 1 + 4 * w := by omega
  have hdm : (1 + 4 * w) * (n / (1 + 4 * w)) + n % (1 + 4 * w) = n :=
    Nat.div_add_mod n (1 + 4 * w)
  have hr : n % (1 + 4 * w) < 1 + 4 * w := Nat.mod_lt _ hstride
  have hq : n / (1 + 4 * w) < h := by
    rw [Nat.div_lt_iff_lt_mul hstride]
    omega
  set q := n / (1 + 4 * w)
  set r := n % (1 + 4 * w)
  have hmul : (1 + 4 * w) * (q + 1) = (1 + 4 * w) * q + (1 + 4 * w) :=
    Nat.mul_succ _ _
  have hle : (1 + 4 * w) * (q + 1) ≤ (1 + 4 * w) * h :=
    Nat.mul_le_mul_left _ (by omega)
  have hcomm : (1 + 4 * w) * h = h * (1 + 4 * w) := Nat.mul_comm _ _
  rw [← hdm]
  rw [byteSwap_getD_mid (byteSwap dec w h) w h q r hq hr, hs,
      if_pos (by omega)]
  by_cases hr0 : r = 0
  · rw [if_pos hr0, hr0]
    simp only [Nat.add_zero, readByte]
    have hmid := byteSwap_getD_mid dec w h q 0 hq hstride
    simp only [Nat.add_zero] at hmid
    rw [hmid, if_pos (by omega)]
    simp [readByte]
  · rw [if_neg hr0]
    by_cases hp0 : (r - 1) % 4 = 0
    · rw [if_pos hp0]
      have hmid := byteSwap_getD_mid dec w h q (r + 2) hq (by omega)
      have eI : (1 + 4 * w) * q + r + 2 = (1 + 4 * w) * q + (r + 2) := by omega
      rw [eI]
      simp only [readByte]
      rw [hmid, if_pos (by omega), if_neg (by omega), if_neg (by omega),
          if_pos (by omega)]
      rw [show (1 + 4 * w) * q + (r + 2) - 2 = (1 + 4 * w) * q + r by omega]
      rfl
    · by_cases hp2 : (r - 1) % 4 = 2
      · rw [if_neg hp0, if_pos hp2]
        have hmid := byteSwap_getD_mid dec w h q (r - 2) hq (by omega)
        have eI : (1 + 4 * w) * q + r - 2 = (1 + 4 * w) * q + (r - 2) := by omega
        rw [eI]
        simp only [readByte]
        rw [hmid, if_pos (by omega), if_neg (by omega), if_pos (by omega)]
        rw [show (1 + 4 * w) * q + (r - 2) + 2 = (1 + 4 * w) * q + r by omega]
        rfl
      · rw [if_neg hp0, if_neg hp2]
        have hmid := byteSwap_getD_mid dec w h q r hq hr
        simp only [readByte]
        rw [hmid, if_pos (by omega), if_neg hr0, if_neg hp0, if_neg hp2]
        rfl

theorem byteSwapIdat_true (c : Codec) (idat : Bytes) (w h : Nat) :
    byteSwapIdat c idat w h true =
      (match c.inflateRaw idat with
       | .error e => .error e
       | .ok d => c.deflate (byteSwap d w h)) := rfl

theorem byteSwapIdat_false (c : Codec) (idat : Bytes) (w h : Nat) :
    byteSwapIdat c idat w h false =
      (match c.inflate idat with
       | .error e => .error e
       | .ok d => c.deflateRaw (byteSwap d w h)) := rfl

/-- A trivial codec for concrete evaluation: every direction is the identity
transform wrapped in success. -/
def idCodec : Codec :=
  ⟨fun b => .ok b, fun b => .ok b, fun b => .ok b, fun b => .ok b⟩

/-- C3: the pixel byte-swap transform (the scanline walk inside
`byteSwapIdat`) is self-inverse on every buffer of valid scanline geometry
(`length = height * (1 + 4 * width)`), and each application preserves the
buffer length. -/
theorem C3_byteSwap_self_inverse (dec : Bytes) (w h : Nat)
    (hlen : dec.length = h * (1 + 4 * w)) :
    byteSwap (byteSwap dec w h) w h = dec ∧
      (byteSwap dec w h).length = dec.length ∧
      (byteSwap (byteSwap dec w h) w h).length = (byteSwap dec w h).length :=
  ⟨byteSwap_byteSwap dec w h hlen, byteSwap_length dec w h,
    byteSwap_length (byteSwap dec w h) w h⟩

/-- Witness for C3 at the concrete buffer `[9, 1, 2, 3, 4]` with
width 1, height 1. -/
theorem C3_witness :
    byteSwap (byteSwap [9, 1, 2, 3, 4] 1 1) 1 1 = [9, 1, 2, 3, 4] ∧
      (byteSwap [9, 1, 2, 3, 4] 1 1).length = ([9, 1, 2, 3, 4] : Bytes).length ∧
      (byteSwap (byteSwap [9, 1, 2, 3, 4] 1 1) 1 1).length =
        (byteSwap [9, 1, 2, 3, 4] 1 1).length :=
  C3_byteSwap_self_inverse [9, 1, 2, 3, 4] 1 1 (by decide)

/-- C4: codec-variant selection in `byteSwapIdat`: `isCgbi = true` selects
raw inflate with zlib-wrapped deflate; `isCgbi = false` selects zlib-wrapped
inflate with raw deflate. -/
theorem C4_codec_selection (c : Codec) (idat : Bytes) (w h : Nat) :
    byteSwapIdat c idat w h true =
        (match c.inflateRaw idat with
         | .error e => .error e
         | .ok d => c.deflate (byteSwap d w h)) ∧
      byteSwapIdat c idat w h false =
        (match c.inflate idat with
         | .error e => .error e
         | .ok d => c.deflateRaw (byteSwap d w h)) :=
  ⟨rfl, rfl⟩

/-- C10: when the decompressed IDAT stream is longer than
`height * (1 + 4 * width)`, the byte-swap stage leaves every byte beyond the
scanline geometry at its zero initialisation in the buffer handed to
deflate. -/
theorem C10_byteSwap_trailing_zeros (c : Codec) (idat dec : Bytes)
    (w h : Nat) (b : Bool)
    (hinf : (if b then c.inflateRaw else c.inflate) idat = .ok dec) :
    byteSwapIdat c idat w h b =
        (if b then c.deflate else c.deflateRaw) (byteSwap dec w h) ∧
      (byteSwap dec w h).length = dec.length ∧
      ∀ k, h * (1 + 4 * w) ≤ k → (byteSwap dec w h).getD k 0 = 0 := by
  refine ⟨?_, byteSwap_length dec w h, fun k hk => byteSwap_getD_high dec w h k hk⟩
  cases b
  · norm_num at hinf ⊢
    rw [byteSwapIdat_false, hinf]
  · norm_num at hinf ⊢
    rw [byteSwapIdat_true, hinf]

/-- Witness for C10: the trailing byte `6`, beyond the geometry of one
0-pixel scanline, is zeroed in the buffer handed to deflate. -/
theorem C10_witness :
    byteSwapIdat idCodec [5, 6] 0 1 true = idCodec.deflate (byteSwap [5, 6] 0 1) ∧
      (byteSwap [5, 6] 0 1).getD 1 0 = 0 ∧
      byteSwapIdat idCodec [5, 6] 0 1 true = .ok [5, 0] := by
  obtain ⟨h1, _, h3⟩ :=
    C10_byteSwap_trailing_zeros idCodec [5, 6] [5, 6] 0 1 true rfl
  exact ⟨h1, h3 1 (by decide), by rw [h1]; rfl⟩

/-- A trivial external CRC for concrete evaluation. -/
def crc0 : Bytes → Bytes → Nat := fun _ _ => 0

/-- C5: `isStandardPng` and `isCgbiPng` are never both true; both are false
on any buffer whose first 8 bytes are not the magic header, in particular on
buffers shorter than the compared window, where the comparison fails the
length check and returns false rather than erroring. -/
theorem C5_detection_exclusivity (data : Bytes) :
    (¬(isStandardPng data = true ∧ isCgbiPng data = true)) ∧
      (data.take 8 ≠ PNG_HEADER →
        isStandardPng data = false ∧ isCgbiPng data = false) ∧
      (data.length < 8 →
        isStandardPng data = false ∧ isCgbiPng data = false) ∧
      (∀ off, data.length < off + 8 → hasCgbiChunk data off = false) := by
  have hsub : subarray data 0 8 = data.take 8 := by
    simp [subarray]
  have hmagic : data.take 8 ≠ PNG_HEADER → hasPngHeader data = false := by
    intro hne
    simp [hasPngHeader, isEquals, hsub, hne]
  have hwin : ∀ off, data.length < off + 8 → hasCgbiChunk data off = false := by
    intro off hoff
    simp only [hasCgbiChunk, isEquals, decide_eq_false_iff_not]
    intro hEq
    have := congrArg List.length hEq
    simp [subarray, CGBI_CHUNK] at this
    omega
  refine ⟨?_, ?_, ?_, hwin⟩
  · rintro ⟨h1, h2⟩
    simp only [isStandardPng, isCgbiPng, Bool.and_eq_true,
      Bool.not_eq_true'] at h1 h2
    rw [h1.2] at h2
    exact absurd h2.2 (by simp)
  · intro hne
    constructor <;> simp [isStandardPng, isCgbiPng, hmagic hne]
  · intro hshort
    have hne : data.take 8 ≠ PNG_HEADER := by
      intro hEq
      have := congrArg List.length hEq
      simp [PNG_HEADER] at this
      omega
    constructor <;> simp [isStandardPng, isCgbiPng, hmagic hne]

/-- Witness for C5 at the concrete buffer `[1, 2, 3]`, shorter than every
compared window. -/
theorem C5_witness :
    isStandardPng [1, 2, 3] = false ∧ isCgbiPng [1, 2, 3] = false ∧
      hasCgbiChunk [1, 2, 3] 0 = false := by
  obtain ⟨-, h2, -, h4⟩ := C5_detection_exclusivity [1, 2, 3]
  exact ⟨(h2 (by decide)).1, (h2 (by decide)).2, h4 0 (by decide)⟩

/-- C6: any input whose first 8 bytes are not the magic header (including
inputs shorter than 8 bytes) makes `convert` fail with the format error
"Data is not a PNG file." and produce no partial output. -/
theorem C6_convert_magic_error (c : Codec) (crc : Bytes → Bytes → Nat)
    (data : Bytes) (h : data.take 8 ≠ PNG_HEADER) :
    convert c crc data = .error "Data is not a PNG file." := by
  have hfalse : hasPngHeader (subarray data 0 8) = false := by
    simp [hasPngHeader, isEquals, subarray, List.take_take, h]
  unfold convert
  rw [hfalse]
  rfl

/-- Witness for C6 at the concrete buffers `[]` and `[1, 2, 3]`. -/
theorem C6_witness :
    convert idCodec crc0 [] = .error "Data is not a PNG file." ∧
      convert idCodec crc0 [1, 2, 3] = .error "Data is not a PNG file." :=
  ⟨C6_convert_magic_error idCodec crc0 [] (by decide),
    C6_convert_magic_error idCodec crc0 [1, 2, 3] (by decide)⟩

/-- C7: with a correct magic header, a first chunk tag (after the CgBI-marker
check) other than "IHDR" makes `convert` fail with a format error rendering
the offending tag bytes as hex. -/
theorem C7_convert_ihdr_error (c : Codec) (crc : Bytes → Bytes → Nat)
    (data : Bytes)
    (hmagic : subarray data 0 8 = PNG_HEADER)
    (htag : ihdrTypeRaw data ≠ IHDR_TAG) :
    convert c crc data = .error ("Invalid PNG header: " ++
      String.intercalate " " ((ihdrTypeRaw data).map byteToHex)) := by
  have h1 : hasPngHeader (subarray data 0 8) = true := by
    rw [hmagic]
    decide
  unfold convert
  rw [h1, if_pos rfl, if_neg htag]

/-- Witness for C7: a first chunk tagged "IDAT" produces the format error
naming the hex tag `49 44 41 54`. -/
theorem C7_witness :
    convert idCodec crc0 (PNG_HEADER ++ [0, 0, 0, 0] ++ IDAT_TAG) =
      .error "Invalid PNG header: 49 44 41 54" := by
  rw [C7_convert_ihdr_error idCodec crc0 (PNG_HEADER ++ [0, 0, 0, 0] ++ IDAT_TAG)
    (by decide) (by decide)]
  rfl

/-- The IHDR chunk bytes (length, tag, payload, CRC) as re-emitted by
`convert`. -/
def ihdrRawBytes (data : Bytes) : Bytes :=
  subarray data (chunksStart data) (chunksStart data + 4) ++
    ihdrTypeRaw data ++ ihdrData data ++
    subarray data (chunksStart data + 8 + ihdrLenField data)
      (chunksStart data + 12 + ihdrLenField data)

/-- C1: whenever `convert` succeeds, its output is exactly the concatenation
of the magic header, the fixed CgBI marker iff the input did not carry one,
the input's IHDR chunk bytes unchanged, the raw bytes of the pass-through
chunks in input scan order, one newly framed IDAT chunk, and the canonical
IEND chunk. -/
theorem C1_convert_output_shape (c : Codec) (crc : Bytes → Bytes → Nat)
    (data out : Bytes) (h : convert c crc data = .ok out) :
    ∃ newIdat,
      byteSwapIdat c (scannedChunks data).2.flatten (imgWidth data)
          (imgHeight data) (cgbiDetected data) = .ok newIdat ∧
      out = PNG_HEADER ++
        (if cgbiDetected data then [] else CGBI_CHUNK ++ CGBI_BGRA) ++
        ihdrRawBytes data ++
        (scannedChunks data).1.flatten ++
        (toUint8Array newIdat.length ++ IDAT_TAG ++ newIdat ++
          toUint8Array (crc IDAT_TAG newIdat)) ++
        IEND_BYTES := by
  by_cases hmag : hasPngHeader (subarray data 0 8) = true
  case neg =>
    unfold convert at h
    rw [if_neg hmag] at h
    cases h
  case pos =>
    unfold convert at h
    rw [if_pos hmag] at h
    by_cases htag : ihdrTypeRaw data = IHDR_TAG
    case neg =>
      rw [if_neg htag] at h
      cases h
    case pos =>
      rw [if_pos htag] at h
      cases hbs : byteSwapIdat c (scannedChunks data).2.flatten (imgWidth data)
          (imgHeight data) (cgbiDetected data) with
      | error e =>
          rw [hbs] at h
          cases h
      | ok ni =>
          rw [hbs] at h
          injection h with hout
          refine ⟨ni, rfl, ?_⟩
          rw [← hout, ihdrRawBytes]
          cases hc : cgbiDetected data <;>
            simp [hc, List.flatten_append, List.append_assoc]

/-- A minimal standard PNG: magic header, an IHDR chunk with an all-zero
13-byte payload, no IDAT data, and the canonical IEND chunk. -/
def pngMin : Bytes :=
  PNG_HEADER ++ [0, 0, 0, 13] ++ IHDR_TAG ++ List.replicate 13 0 ++
    [0, 0, 0, 0] ++ IEND_BYTES

/-- `convert`'s output on `pngMin`. -/
def pngMinOut : Bytes :=
  PNG_HEADER ++ CGBI_CHUNK ++ CGBI_BGRA ++ [0, 0, 0, 13] ++ IHDR_TAG ++
    List.replicate 13 0 ++ [0, 0, 0, 0] ++ [0, 0, 0, 0] ++ IDAT_TAG ++
    [0, 0, 0, 0] ++ IEND_BYTES

/-- Witness for C1 at the concrete input `pngMin`. -/
theorem C1_witness :
    ∃ newIdat,
      byteSwapIdat idCodec (scannedChunks pngMin).2.flatten (imgWidth pngMin)
          (imgHeight pngMin) (cgbiDetected pngMin) = .ok newIdat ∧
      pngMinOut = PNG_HEADER ++
        (if cgbiDetected pngMin then [] else CGBI_CHUNK ++ CGBI_BGRA) ++
        ihdrRawBytes pngMin ++
        (scannedChunks pngMin).1.flatten ++
        (toUint8Array newIdat.length ++ IDAT_TAG ++ newIdat ++
          toUint8Array (crc0 IDAT_TAG newIdat)) ++
        IEND_BYTES :=
  C1_convert_output_shape idCodec crc0 pngMin pngMinOut (by rfl)

/-! ## Chunk framing and the chunk-scan loop on well-formed inputs -/

/-- A decoded PNG chunk: 4-byte type tag, payload, 4-byte CRC. -/
structure Chunk where
  tag : Bytes
  payload : Bytes
  crc : Bytes

/-- The byte framing of a chunk: big-endian payload length, tag, payload,
CRC. -/
def encodeChunk (ch : Chunk) : Bytes :=
  toUint8Array ch.payload.length ++ ch.tag ++ ch.payload ++ ch.crc

/-- Structural well-formedness of a chunk as framed in a real PNG stream:
4-byte tag and CRC, payload length representable in the 32-bit length
field. -/
def wfChunk (ch : Chunk) : Prop :=
  ch.tag.length = 4 ∧ ch.crc.length = 4 ∧ ch.payload.length < 4294967296

/-- Pass-through condition of the scan loop: neither IDAT nor iDOT. -/
def isPassTag (ch : Chunk) : Bool :=
  !(ch.tag == IDAT_TAG) && !(ch.tag == iDOT_TAG)

/-- IDAT condition of the scan loop. -/
def isIdatTag (ch : Chunk) : Bool :=
  ch.tag == IDAT_TAG

/-- The canonical IEND chunk; `encodeChunk iendChunk = IEND_BYTES`. -/
def iendChunk : Chunk :=
  ⟨IEND_TAG, [], [0xae, 0x42, 0x60, 0x82]⟩

theorem encodeChunk_iendChunk : encodeChunk iendChunk = IEND_BYTES := rfl

theorem toUint8Array_length (n : Nat) : (toUint8Array n).length = 4 := rfl

theorem toNumber_toUint8Array (n : Nat) (h : n < 4294967296) :
    toNumber (toUint8Array n) = n := by
  simp only [toNumber, toUint8Array, List.foldl]
  omega

theorem encodeChunk_length (ch : Chunk) (hwf : wfChunk ch) :
    (encodeChunk ch).length = 12 + ch.payload.length := by
  obtain ⟨h1, h2, -⟩ := hwf
  simp [encodeChunk, toUint8Array, h1, h2]
  omega

theorem subarray_middle (x y z : Bytes) :
    subarray (x ++ y ++ z) x.length (x.length + y.length) = y := by
  rw [List.append_assoc, subarray, List.drop_left,
      show x.length + y.length - x.length = y.length by omega]
  exact List.take_left y z

theorem subarray_at (x y z : Bytes) (a b : Nat) (ha : a = x.length)
    (hb : b = x.length + y.length) :
    subarray (x ++ (y ++ z)) a b = y := by
  subst ha
  subst hb
  rw [← List.append_assoc]
  exact subarray_middle x y z

theorem reads_of_encodeChunk (pre rest : Bytes) (ch : Chunk)
    (hwf : wfChunk ch) :
    subarray (pre ++ encodeChunk ch ++ rest) pre.length (pre.length + 4)
        = toUint8Array ch.payload.length ∧
      subarray (pre ++ encodeChunk ch ++ rest) (pre.length + 4)
        (pre.length + 8) = ch.tag ∧
      subarray (pre ++ encodeChunk ch ++ rest) (pre.length + 8)
        (pre.length + 8 + ch.payload.length) = ch.payload ∧
      subarray (pre ++ encodeChunk ch ++ rest) (pre.length + 8 + ch.payload.length)
        (pre.length + 12 + ch.payload.length) = ch.crc := by
  obtain ⟨htag, hcrc, -⟩ := hwf
  have hshape : pre ++ encodeChunk ch ++ rest =
      pre ++ (toUint8Array ch.payload.length ++
        (ch.tag ++ (ch.payload ++ (ch.crc ++ rest)))) := by
    simp [encodeChunk, List.append_assoc]
  refine ⟨?_, ?_, ?_, ?_⟩
  · rw [hshape]
    exact subarray_at _ _ _ _ _ rfl (by simp [toUint8Array])
  · rw [hshape, show pre ++ (toUint8Array ch.payload.length ++
        (ch.tag ++ (ch.payload ++ (ch.crc ++ rest)))) =
        (pre ++ toUint8Array ch.payload.length) ++
          (ch.tag ++ (ch.payload ++ (ch.crc ++ rest))) by
      simp [List.append_assoc]]
    exact subarray_at _ _ _ _ _ (by simp [toUint8Array])
      (by simp [toUint8Array, htag]; try omega)
  · rw [hshape, show pre ++ (toUint8Array ch.payload.length ++
        (ch.tag ++ (ch.payload ++ (ch.crc ++ rest)))) =
        (pre ++ toUint8Array ch.payload.length ++ ch.tag) ++
          (ch.payload ++ (ch.crc ++ rest)) by
      simp [List.append_assoc]]
    exact subarray_at _ _ _ _ _ (by simp [toUint8Array, htag]; try omega)
      (by simp [toUint8Array, htag]; try omega)
  · rw [hshape, show pre ++ (toUint8Array ch.payload.length ++
        (ch.tag ++ (ch.payload ++ (ch.crc ++ rest)))) =
        (pre ++ toUint8Array ch.payload.length ++ ch.tag ++ ch.payload) ++
          (ch.crc ++ rest) by
      simp [List.append_assoc]]
    exact subarray_at _ _ _ _ _ (by simp [toUint8Array, htag]; try omega)
      (by simp [toUint8Array, htag, hcrc]; try omega)

theorem wfChunk_iendChunk : wfChunk iendChunk :=
  ⟨rfl, rfl, by decide⟩

theorem encodeChunk_iendChunk_length : (encodeChunk iendChunk).length = 12 :=
  rfl

theorem scanChunks_spec :
    ∀ (cs : List Chunk) (pre junk : Bytes) (fuel : Nat),
      (∀ ch ∈ cs, wfChunk ch ∧ ch.tag ≠ IEND_TAG) →
      (pre ++ (cs.map encodeChunk).flatten ++
          (encodeChunk iendChunk ++ junk)).length - pre.length < fuel →
      scanChunks (pre ++ (cs.map encodeChunk).flatten ++
          (encodeChunk iendChunk ++ junk)) fuel pre.length =
        ((cs.filter isPassTag).map encodeChunk,
          (cs.filter isIdatTag).map Chunk.payload) := by
  intro cs
  induction cs with
  | nil =>
      intro pre junk fuel hwf hfuel
      simp only [List.map_nil, List.flatten_nil, List.append_nil] at hfuel ⊢
      cases fuel with
      | zero => omega
      | succ fuel =>
          have hdata : pre ++ (encodeChunk iendChunk ++ junk) =
              pre ++ encodeChunk iendChunk ++ junk := by
            simp [List.append_assoc]
          rw [hdata]
          obtain ⟨r1, r2, r3, r4⟩ :=
            reads_of_encodeChunk pre junk iendChunk wfChunk_iendChunk
          have hlen : (pre ++ encodeChunk iendChunk ++ junk).length =
              pre.length + 12 + junk.length := by
            simp only [List.length_append, encodeChunk_iendChunk_length]
            try omega
          simp only [scanChunks]
          rw [if_pos (by omega), r2]
          rw [if_neg (by decide), if_neg (by decide), if_pos (by decide)]
          simp [List.filter_nil]
  | cons ch cs ih =>
      intro pre junk fuel hwf hfuel
      obtain ⟨hwfc, hne⟩ := hwf ch (by simp)
      have he := encodeChunk_length ch hwfc
      have hdata : pre ++ (List.map encodeChunk (ch :: cs)).flatten ++
          (encodeChunk iendChunk ++ junk) =
          pre ++ encodeChunk ch ++ ((List.map encodeChunk cs).flatten ++
            (encodeChunk iendChunk ++ junk)) := by
        simp [List.append_assoc]
      rw [hdata] at hfuel ⊢
      have hlen : (pre ++ encodeChunk ch ++ ((List.map encodeChunk cs).flatten ++
          (encodeChunk iendChunk ++ junk))).length =
          pre.length + (encodeChunk ch).length +
            ((List.map encodeChunk cs).flatten ++
              (encodeChunk iendChunk ++ junk)).length := by
        simp only [List.length_append]
      have hiendlen : (encodeChunk iendChunk ++ junk).length =
          12 + junk.length := by
        simp only [List.length_append, encodeChunk_iendChunk_length]
      cases fuel with
      | zero => omega
      | succ fuel =>
          obtain ⟨r1, r2, r3, r4⟩ := reads_of_encodeChunk pre _ ch hwfc
          simp only [scanChunks]
          rw [if_pos (by omega), r1, toNumber_toUint8Array _ hwfc.2.2,
              r2, r3, r4]
          have hoff : pre.length + 12 + ch.payload.length =
              (pre ++ encodeChunk ch).length := by
            simp [he]
            omega
          have hdata2 : pre ++ encodeChunk ch ++
              ((List.map encodeChunk cs).flatten ++
                (encodeChunk iendChunk ++ junk)) =
              (pre ++ encodeChunk ch) ++ (List.map encodeChunk cs).flatten ++
                (encodeChunk iendChunk ++ junk) := by
            simp [List.append_assoc]
          have hrec : scanChunks (pre ++ encodeChunk ch ++
              ((List.map encodeChunk cs).flatten ++
                (encodeChunk iendChunk ++ junk))) fuel
              (pre.length + 12 + ch.payload.length) =
              ((cs.filter isPassTag).map encodeChunk,
                (cs.filter isIdatTag).map Chunk.payload) := by
            rw [hoff, hdata2]
            have hfuel2 := hfuel
            simp only [List.length_append] at hfuel2
            refine ih (pre ++ encodeChunk ch) junk fuel
              (fun ch' hm => hwf ch' (by simp [hm])) ?_
            simp only [List.length_append]
            omega
          have t1 : ¬(iDOT_TAG = IDAT_TAG) := by decide
          by_cases hidat : ch.tag = IDAT_TAG
          · rw [if_pos hidat, hrec]
            simp [isPassTag, isIdatTag, hidat, List.filter_cons]
          · rw [if_neg hidat]
            by_cases hidot : ch.tag = iDOT_TAG
            · rw [if_pos hidot, hrec]
              simp [isPassTag, isIdatTag, hidat, hidot, List.filter_cons, t1]
            · rw [if_neg hidot, if_neg hne, hrec]
              simp [isPassTag, isIdatTag, hidat, hidot, List.filter_cons,
                encodeChunk]

/-- The concatenated IDAT payloads the scan collects from a chunk list. -/
def idatJoin (cs : List Chunk) : Bytes :=
  ((cs.filter isIdatTag).map Chunk.payload).flatten

/-- The pass-through chunks of a chunk list, in scan order. -/
def passChunks (cs : List Chunk) : List Chunk :=
  cs.filter isPassTag

/-- A well-formed PNG input stream: magic header, optional CgBI marker, an
IHDR chunk, further chunks, and the canonical IEND chunk. -/
def mkPng (marker : Bool) (ihdr : Chunk) (cs : List Chunk) : Bytes :=
  PNG_HEADER ++ (if marker then CGBI_CHUNK ++ CGBI_BGRA else []) ++
    encodeChunk ihdr ++ (cs.map encodeChunk).flatten ++ IEND_BYTES

/-- Width field of an IHDR payload. -/
def ihdrWidth (ch : Chunk) : Nat := toNumber (subarray ch.payload 0 4)

/-- Height field of an IHDR payload. -/
def ihdrHeight (ch : Chunk) : Nat := toNumber (subarray ch.payload 4 8)

/-- The bytes preceding the IHDR chunk in `mkPng`. -/
def preBytes (m : Bool) : Bytes :=
  PNG_HEADER ++ (if m then CGBI_CHUNK ++ CGBI_BGRA else [])

theorem preBytes_length (m : Bool) :
    (preBytes m).length = if m then 24 else 8 := by
  cases m <;> rfl

theorem mkPng_shape (m : Bool) (ihdr : Chunk) (cs : List Chunk) :
    mkPng m ihdr cs = preBytes m ++ encodeChunk ihdr ++
      ((cs.map encodeChunk).flatten ++ (encodeChunk iendChunk ++ [])) := by
  simp [mkPng, preBytes, encodeChunk_iendChunk, List.append_assoc]

theorem cgbiDetected_mkPng (m : Bool) (ihdr : Chunk) (cs : List Chunk)
    (hwf : wfChunk ihdr) (htag : ihdr.tag = IHDR_TAG) :
    cgbiDetected (mkPng m ihdr cs) = m := by
  cases m
  · have hshape : mkPng false ihdr cs =
        PNG_HEADER ++ ((toUint8Array ihdr.payload.length ++ ihdr.tag) ++
          (ihdr.payload ++ (ihdr.crc ++
            ((cs.map encodeChunk).flatten ++ IEND_BYTES)))) := by
      simp [mkPng, encodeChunk, List.append_assoc]
    have hsub : subarray (mkPng false ihdr cs) 8 16 =
        toUint8Array ihdr.payload.length ++ ihdr.tag := by
      rw [hshape]
      exact subarray_at _ _ _ _ _ rfl
        (by simp [toUint8Array, hwf.1, PNG_HEADER])
    unfold cgbiDetected hasCgbiChunk
    rw [hsub, htag]
    have hall : subarray (toUint8Array ihdr.payload.length ++ IHDR_TAG) 0 (0 + 8) =
        toUint8Array ihdr.payload.length ++ IHDR_TAG := by
      rw [subarray]
      simp [toUint8Array, IHDR_TAG]
    rw [hall]
    simp [isEquals, toUint8Array, IHDR_TAG, CGBI_CHUNK]
  · have hshape : mkPng true ihdr cs =
        PNG_HEADER ++ (CGBI_CHUNK ++ (CGBI_BGRA ++ (encodeChunk ihdr ++
          ((cs.map encodeChunk).flatten ++ IEND_BYTES)))) := by
      simp [mkPng, List.append_assoc]
    have hsub : subarray (mkPng true ihdr cs) 8 16 = CGBI_CHUNK := by
      rw [hshape]
      exact subarray_at _ _ _ _ _ rfl rfl
    unfold cgbiDetected
    rw [hsub]
    decide

theorem chunksStart_mkPng (m : Bool) (ihdr : Chunk) (cs : List Chunk)
    (hwf : wfChunk ihdr) (htag : ihdr.tag = IHDR_TAG) :
    chunksStart (mkPng m ihdr cs) = (preBytes m).length := by
  unfold chunksStart
  rw [cgbiDetected_mkPng m ihdr cs hwf htag, preBytes_length]

theorem mkPng_reads (m : Bool) (ihdr : Chunk) (cs : List Chunk)
    (hwf : wfChunk ihdr) (htag : ihdr.tag = IHDR_TAG) :
    subarray (mkPng m ihdr cs) (chunksStart (mkPng m ihdr cs))
        (chunksStart (mkPng m ihdr cs) + 4) = toUint8Array ihdr.payload.length ∧
      ihdrTypeRaw (mkPng m ihdr cs) = ihdr.tag ∧
      ihdrLenField (mkPng m ihdr cs) = ihdr.payload.length ∧
      ihdrData (mkPng m ihdr cs) = ihdr.payload ∧
      subarray (mkPng m ihdr cs)
        (chunksStart (mkPng m ihdr cs) + 8 + ihdrLenField (mkPng m ihdr cs))
        (chunksStart (mkPng m ihdr cs) + 12 + ihdrLenField (mkPng m ihdr cs)) =
        ihdr.crc := by
  have hcc : chunksStart (mkPng m ihdr cs) = (preBytes m).length :=
    chunksStart_mkPng m ihdr cs hwf htag
  have hshape := mkPng_shape m ihdr cs
  obtain ⟨r1, r2, r3, r4⟩ := reads_of_encodeChunk (preBytes m)
    ((cs.map encodeChunk).flatten ++ (encodeChunk iendChunk ++ [])) ihdr hwf
  rw [← hshape] at r1 r2 r3 r4
  have h1 : subarray (mkPng m ihdr cs) (chunksStart (mkPng m ihdr cs))
      (chunksStart (mkPng m ihdr cs) + 4) = toUint8Array ihdr.payload.length := by
    rw [hcc]
    exact r1
  have hlf : ihdrLenField (mkPng m ihdr cs) = ihdr.payload.length := by
    unfold ihdrLenField
    rw [h1, toNumber_toUint8Array _ hwf.2.2]
  refine ⟨h1, ?_, hlf, ?_, ?_⟩
  · unfold ihdrTypeRaw
    rw [hcc]
    exact r2
  · unfold ihdrData
    rw [hlf, hcc]
    exact r3
  · rw [hlf, hcc]
    exact r4

theorem scannedChunks_mkPng (m : Bool) (ihdr : Chunk) (cs : List Chunk)
    (hwf : wfChunk ihdr) (htag : ihdr.tag = IHDR_TAG)
    (hcs : ∀ ch ∈ cs, wfChunk ch ∧ ch.tag ≠ IEND_TAG) :
    scannedChunks (mkPng m ihdr cs) =
      ((passChunks cs).map encodeChunk,
        (cs.filter isIdatTag).map Chunk.payload) := by
  obtain ⟨-, -, hlf, -, -⟩ := mkPng_reads m ihdr cs hwf htag
  have hcc : chunksStart (mkPng m ihdr cs) = (preBytes m).length :=
    chunksStart_mkPng m ihdr cs hwf htag
  have hss : scanStart (mkPng m ihdr cs) =
      (preBytes m ++ encodeChunk ihdr).length := by
    unfold scanStart
    rw [hcc, hlf, List.length_append, encodeChunk_length ihdr hwf]
    omega
  unfold scannedChunks
  rw [hss]
  have hshape : mkPng m ihdr cs =
      (preBytes m ++ encodeChunk ihdr) ++ (cs.map encodeChunk).flatten ++
        (encodeChunk iendChunk ++ []) := by
    rw [mkPng_shape m ihdr cs]
    simp [List.append_assoc]
  rw [hshape]
  exact scanChunks_spec cs (preBytes m ++ encodeChunk ihdr) []
    ((mkPng m ihdr cs).length + 1) hcs (by rw [hshape]; omega)

theorem imgWidth_mkPng (m : Bool) (ihdr : Chunk) (cs : List Chunk)
    (hwf : wfChunk ihdr) (htag : ihdr.tag = IHDR_TAG) :
    imgWidth (mkPng m ihdr cs) = ihdrWidth ihdr ∧
      imgHeight (mkPng m ihdr cs) = ihdrHeight ihdr := by
  obtain ⟨-, -, -, hdta, -⟩ := mkPng_reads m ihdr cs hwf htag
  unfold imgWidth imgHeight ihdrWidth ihdrHeight
  rw [hdta]
  exact ⟨rfl, rfl⟩

theorem subarray_zero (l : Bytes) (b : Nat) : subarray l 0 b = l.take b := by
  simp [subarray]

theorem hasPngHeader_mkPng (m : Bool) (ihdr : Chunk) (cs : List Chunk) :
    hasPngHeader (subarray (mkPng m ihdr cs) 0 8) = true := by
  have hsub : subarray (mkPng m ihdr cs) 0 8 = PNG_HEADER := by
    have hshape : mkPng m ihdr cs = PNG_HEADER ++
        ((if m then CGBI_CHUNK ++ CGBI_BGRA else []) ++
          (encodeChunk ihdr ++ ((cs.map encodeChunk).flatten ++ IEND_BYTES))) := by
      simp [mkPng, List.append_assoc]
    rw [hshape, subarray_zero, show (8 : Nat) = PNG_HEADER.length from rfl,
        List.take_left]
  rw [hsub]
  decide

theorem convert_mkPng (c : Codec) (crc : Bytes → Bytes → Nat) (m : Bool)
    (ihdr : Chunk) (cs : List Chunk) (dec defl : Bytes)
    (hwf : wfChunk ihdr) (htag : ihdr.tag = IHDR_TAG)
    (hcs : ∀ ch ∈ cs, wfChunk ch ∧ ch.tag ≠ IEND_TAG)
    (hinf : (if m then c.inflateRaw else c.inflate) (idatJoin cs) = .ok dec)
    (hdef : (if m then c.deflate else c.deflateRaw)
        (byteSwap dec (ihdrWidth ihdr) (ihdrHeight ihdr)) = .ok defl) :
    convert c crc (mkPng m ihdr cs) = .ok
      (PNG_HEADER ++ (if m then [] else CGBI_CHUNK ++ CGBI_BGRA) ++
        encodeChunk ihdr ++ ((passChunks cs).map encodeChunk).flatten ++
        encodeChunk ⟨IDAT_TAG, defl, toUint8Array (crc IDAT_TAG defl)⟩ ++
        IEND_BYTES) := by
  obtain ⟨hlenB, htr, hlf, hdta, hcrcB⟩ := mkPng_reads m ihdr cs hwf htag
  have hcg := cgbiDetected_mkPng m ihdr cs hwf htag
  have hscan := scannedChunks_mkPng m ihdr cs hwf htag hcs
  obtain ⟨hw, hh⟩ := imgWidth_mkPng m ihdr cs hwf htag
  have hbs : byteSwapIdat c (scannedChunks (mkPng m ihdr cs)).2.flatten
      (imgWidth (mkPng m ihdr cs)) (imgHeight (mkPng m ihdr cs))
      (cgbiDetected (mkPng m ihdr cs)) = .ok defl := by
    rw [hscan, hcg, hw, hh]
    cases m
    · norm_num at hinf hdef
      rw [byteSwapIdat_false]
      rw [show ((cs.filter isIdatTag).map Chunk.payload).flatten = idatJoin cs
        from rfl, hinf]
      exact hdef
    · norm_num at hinf hdef
      rw [byteSwapIdat_true]
      rw [show ((cs.filter isIdatTag).map Chunk.payload).flatten = idatJoin cs
        from rfl, hinf]
      exact hdef
  unfold convert
  rw [hasPngHeader_mkPng m ihdr cs, if_pos rfl, htr, if_pos htag, hbs]
  rw [hlenB, hdta, hcrcB, hcg, hscan]
  cases m <;>
    simp [encodeChunk, passChunks, List.flatten_append, List.append_assoc]

/-- C8: pass-through fidelity — on a well-formed input every chunk that the
scan classifies as pass-through (not IDAT, not iDOT; IEND terminates the
scan) is re-emitted byte-for-byte in its input order, between the IHDR chunk
and the single new IDAT chunk. -/
theorem C8_passthrough_fidelity (c : Codec) (crc : Bytes → Bytes → Nat)
    (m : Bool) (ihdr : Chunk) (cs : List Chunk) (dec defl : Bytes)
    (hwf : wfChunk ihdr) (htag : ihdr.tag = IHDR_TAG)
    (hcs : ∀ ch ∈ cs, wfChunk ch ∧ ch.tag ≠ IEND_TAG)
    (hinf : (if m then c.inflateRaw else c.inflate) (idatJoin cs) = .ok dec)
    (hdef : (if m then c.deflate else c.deflateRaw)
        (byteSwap dec (ihdrWidth ihdr) (ihdrHeight ihdr)) = .ok defl) :
    ∃ idatChunkBytes,
      convert c crc (mkPng m ihdr cs) = .ok
        (PNG_HEADER ++ (if m then [] else CGBI_CHUNK ++ CGBI_BGRA) ++
          encodeChunk ihdr ++
          ((cs.filter (fun ch => !(ch.tag == IDAT_TAG) &&
            !(ch.tag == iDOT_TAG))).map encodeChunk).flatten ++
          idatChunkBytes ++ IEND_BYTES) :=
  ⟨encodeChunk ⟨IDAT_TAG, defl, toUint8Array (crc IDAT_TAG defl)⟩,
    convert_mkPng c crc m ihdr cs dec defl hwf htag hcs hinf hdef⟩

/-- The IHDR chunk used in the concrete witnesses: all-zero 13-byte
payload (width = height = 0). -/
def ihdrZero : Chunk := ⟨IHDR_TAG, List.replicate 13 0, [0, 0, 0, 0]⟩

/-- A concrete ancillary text chunk. -/
def textChunk : Chunk := ⟨[0x74, 0x45, 0x58, 0x74], [1, 2], [9, 9, 9, 9]⟩

/-- A concrete iDOT chunk. -/
def idotChunk : Chunk := ⟨iDOT_TAG, [], [0, 0, 0, 0]⟩

theorem wfChunk_ihdrZero : wfChunk ihdrZero := ⟨rfl, rfl, by decide⟩

/-- Witness for C8: a text chunk survives conversion byte-for-byte. -/
theorem C8_witness :
    ∃ idatChunkBytes,
      convert idCodec crc0 (mkPng false ihdrZero [textChunk]) = .ok
        (PNG_HEADER ++ (if false then [] else CGBI_CHUNK ++ CGBI_BGRA) ++
          encodeChunk ihdrZero ++
          (([textChunk].filter (fun ch => !(ch.tag == IDAT_TAG) &&
            !(ch.tag == iDOT_TAG))).map encodeChunk).flatten ++
          idatChunkBytes ++ IEND_BYTES) :=
  C8_passthrough_fidelity idCodec crc0 false ihdrZero [textChunk] [] []
    wfChunk_ihdrZero rfl
    (by
      intro ch hm
      simp only [List.mem_singleton] at hm
      subst hm
      exact ⟨⟨rfl, rfl, by decide⟩, by decide⟩)
    rfl rfl

/-- C9: iDOT dropping — on a well-formed input, even one containing iDOT
chunks, the successful output splits (after the magic/marker prefix) into a
chunk sequence in which no chunk is tagged "iDOT". -/
theorem C9_idot_dropped (c : Codec) (crc : Bytes → Bytes → Nat)
    (m : Bool) (ihdr : Chunk) (cs : List Chunk) (dec defl : Bytes)
    (hwf : wfChunk ihdr) (htag : ihdr.tag = IHDR_TAG)
    (hcs : ∀ ch ∈ cs, wfChunk ch ∧ ch.tag ≠ IEND_TAG)
    (hinf : (if m then c.inflateRaw else c.inflate) (idatJoin cs) = .ok dec)
    (hdef : (if m then c.deflate else c.deflateRaw)
        (byteSwap dec (ihdrWidth ihdr) (ihdrHeight ihdr)) = .ok defl) :
    ∃ outChunks : List Chunk,
      convert c crc (mkPng m ihdr cs) = .ok
        (PNG_HEADER ++ (if m then [] else CGBI_CHUNK ++ CGBI_BGRA) ++
          (outChunks.map encodeChunk).flatten) ∧
      ∀ ch ∈ outChunks, ch.tag ≠ iDOT_TAG := by
  refine ⟨ihdr :: (passChunks cs ++
    [⟨IDAT_TAG, defl, toUint8Array (crc IDAT_TAG defl)⟩, iendChunk]), ?_, ?_⟩
  · rw [convert_mkPng c crc m ihdr cs dec defl hwf htag hcs hinf hdef]
    simp [encodeChunk_iendChunk, List.flatten_append, List.append_assoc]
  · intro ch hm
    simp only [List.mem_cons, List.mem_append, List.mem_singleton] at hm
    rcases hm with rfl | hm | rfl | rfl | hm
    · rw [htag]
      decide
    · have hp := (List.mem_filter.mp hm).2
      simp only [isPassTag, Bool.and_eq_true, Bool.not_eq_true',
        beq_eq_false_iff_ne, ne_eq] at hp
      exact hp.2
    · exact (by decide : IDAT_TAG ≠ iDOT_TAG)
    · decide
    · cases hm

/-- Witness for C9: an input containing an iDOT chunk converts successfully
and no output chunk is tagged "iDOT". -/
theorem C9_witness :
    ∃ outChunks : List Chunk,
      convert idCodec crc0 (mkPng false ihdrZero [idotChunk]) = .ok
        (PNG_HEADER ++ (if false then [] else CGBI_CHUNK ++ CGBI_BGRA) ++
          (outChunks.map encodeChunk).flatten) ∧
      ∀ ch ∈ outChunks, ch.tag ≠ iDOT_TAG :=
  C9_idot_dropped idCodec crc0 false ihdrZero [idotChunk] [] []
    wfChunk_ihdrZero rfl
    (by
      intro ch hm
      simp only [List.mem_singleton] at hm
      subst hm
      exact ⟨⟨rfl, rfl, by decide⟩, by decide⟩)
    rfl rfl

theorem idatJoin_pass_append_idat (cs : List Chunk) (idatC : Chunk)
    (hidat : isIdatTag idatC = true) :
    idatJoin (passChunks cs ++ [idatC]) = idatC.payload := by
  unfold idatJoin
  rw [List.filter_append]
  have h1 : (passChunks cs).filter isIdatTag = [] := by
    rw [List.filter_eq_nil_iff]
    intro ch hm
    have hp := (List.mem_filter.mp hm).2
    simp only [isPassTag, Bool.and_eq_true, Bool.not_eq_true'] at hp
    simp [isIdatTag, hp.1]
  rw [h1]
  simp [hidat]

theorem passChunks_pass_append_idat (cs : List Chunk) (idatC : Chunk)
    (hidat : isPassTag idatC = false) :
    passChunks (passChunks cs ++ [idatC]) = passChunks cs := by
  unfold passChunks
  rw [List.filter_append, List.filter_filter]
  have h1 : ∀ ch, (isPassTag ch && isPassTag ch) = isPassTag ch := by
    intro ch
    cases isPassTag ch <;> rfl
  simp only [h1]
  simp [hidat]

/-- C2: round-trip — for a valid standard PNG (well-formed chunk layout, no
iDOT chunks, IDAT stream decompressing to exact 32-bit scanline geometry),
converting twice with a codec whose inflate variants invert its deflate
variants reproduces every chunk byte-for-byte except the CgBI marker and the
IDAT encoding, and the final IDAT payload decompresses to exactly the
original decompressed pixel bytes. -/
theorem C2_roundtrip (c : Codec) (crc : Bytes → Bytes → Nat)
    (Z R : Bytes → Bytes) (ihdr : Chunk) (cs : List Chunk) (dec : Bytes)
    (hZ : ∀ b, c.deflate b = .ok (Z b)) (hR : ∀ b, c.deflateRaw b = .ok (R b))
    (hZi : ∀ b, c.inflate (Z b) = .ok b) (hRi : ∀ b, c.inflateRaw (R b) = .ok b)
    (hwf : wfChunk ihdr) (htag : ihdr.tag = IHDR_TAG)
    (hcs : ∀ ch ∈ cs, wfChunk ch ∧ ch.tag ≠ IEND_TAG ∧ ch.tag ≠ iDOT_TAG)
    (hinf : c.inflate (idatJoin cs) = .ok dec)
    (hgeom : dec.length = ihdrHeight ihdr * (1 + 4 * ihdrWidth ihdr))
    (hRlen : (R (byteSwap dec (ihdrWidth ihdr) (ihdrHeight ihdr))).length <
      4294967296) :
    ∃ out1,
      convert c crc (mkPng false ihdr cs) = .ok out1 ∧
      convert c crc out1 = .ok
        (PNG_HEADER ++ encodeChunk ihdr ++
          ((cs.filter (fun ch => !(ch.tag == IDAT_TAG))).map
            encodeChunk).flatten ++
          encodeChunk ⟨IDAT_TAG, Z dec, toUint8Array (crc IDAT_TAG (Z dec))⟩ ++
          IEND_BYTES) ∧
      c.inflate (Z dec) = .ok dec := by
  have hcs1 : ∀ ch ∈ cs, wfChunk ch ∧ ch.tag ≠ IEND_TAG :=
    fun ch hm => ⟨(hcs ch hm).1, (hcs ch hm).2.1⟩
  have step1 := convert_mkPng c crc false ihdr cs dec
    (R (byteSwap dec (ihdrWidth ihdr) (ihdrHeight ihdr))) hwf htag hcs1
    (by norm_num; exact hinf)
    (by norm_num; exact hR _)
  refine ⟨_, step1, ?_, hZi dec⟩
  have hidatC1wf : wfChunk ⟨IDAT_TAG, R (byteSwap dec (ihdrWidth ihdr)
      (ihdrHeight ihdr)), toUint8Array (crc IDAT_TAG (R (byteSwap dec
      (ihdrWidth ihdr) (ihdrHeight ihdr))))⟩ :=
    ⟨rfl, rfl, hRlen⟩
  have hshape1 : PNG_HEADER ++ (if false then [] else CGBI_CHUNK ++ CGBI_BGRA) ++
      encodeChunk ihdr ++ ((passChunks cs).map encodeChunk).flatten ++
      encodeChunk ⟨IDAT_TAG, R (byteSwap dec (ihdrWidth ihdr) (ihdrHeight ihdr)),
        toUint8Array (crc IDAT_TAG (R (byteSwap dec (ihdrWidth ihdr)
          (ihdrHeight ihdr))))⟩ ++ IEND_BYTES =
      mkPng true ihdr (passChunks cs ++
        [⟨IDAT_TAG, R (byteSwap dec (ihdrWidth ihdr) (ihdrHeight ihdr)),
          toUint8Array (crc IDAT_TAG (R (byteSwap dec (ihdrWidth ihdr)
            (ihdrHeight ihdr))))⟩]) := by
    simp [mkPng, List.flatten_append, List.append_assoc]
  rw [hshape1]
  have hcs2 : ∀ ch ∈ passChunks cs ++
      [⟨IDAT_TAG, R (byteSwap dec (ihdrWidth ihdr) (ihdrHeight ihdr)),
        toUint8Array (crc IDAT_TAG (R (byteSwap dec (ihdrWidth ihdr)
          (ihdrHeight ihdr))))⟩],
      wfChunk ch ∧ ch.tag ≠ IEND_TAG := by
    intro ch hm
    rcases List.mem_append.mp hm with hm | hm
    · exact hcs1 ch (List.mem_filter.mp hm).1
    · rw [List.mem_singleton.mp hm]
      exact ⟨hidatC1wf, (by decide : IDAT_TAG ≠ IEND_TAG)⟩
  have step2 := convert_mkPng c crc true ihdr (passChunks cs ++
      [⟨IDAT_TAG, R (byteSwap dec (ihdrWidth ihdr) (ihdrHeight ihdr)),
        toUint8Array (crc IDAT_TAG (R (byteSwap dec (ihdrWidth ihdr)
          (ihdrHeight ihdr))))⟩]) (byteSwap dec (ihdrWidth ihdr)
      (ihdrHeight ihdr)) (Z dec) hwf htag hcs2
    (by
      norm_num
      rw [idatJoin_pass_append_idat cs _ (by simp [isIdatTag])]
      exact hRi _)
    (by
      norm_num
      rw [byteSwap_byteSwap dec (ihdrWidth ihdr) (ihdrHeight ihdr) hgeom]
      exact hZ dec)
  rw [step2]
  have hpass2 : passChunks (passChunks cs ++
      [⟨IDAT_TAG, R (byteSwap dec (ihdrWidth ihdr) (ihdrHeight ihdr)),
        toUint8Array (crc IDAT_TAG (R (byteSwap dec (ihdrWidth ihdr)
          (ihdrHeight ihdr))))⟩]) = passChunks cs :=
    passChunks_pass_append_idat cs _ (by simp [isPassTag])
  rw [hpass2]
  have hpasseq : passChunks cs =
      cs.filter (fun ch => !(ch.tag == IDAT_TAG)) := by
    unfold passChunks
    apply List.filter_congr
    intro ch hm
    have hid := (hcs ch hm).2.2
    simp [isPassTag, hid]
  rw [hpasseq]
  simp

/-- Witness for C2 at a concrete standard PNG (empty IDAT stream, zero
geometry) with the identity codec. -/
theorem C2_witness :
    ∃ out1,
      convert idCodec crc0 (mkPng false ihdrZero []) = .ok out1 ∧
      convert idCodec crc0 out1 = .ok
        (PNG_HEADER ++ encodeChunk ihdrZero ++
          ((([] : List Chunk).filter (fun ch => !(ch.tag == IDAT_TAG))).map
            encodeChunk).flatten ++
          encodeChunk ⟨IDAT_TAG, (fun b => b) ([] : Bytes),
            toUint8Array (crc0 IDAT_TAG ((fun b => b) ([] : Bytes)))⟩ ++
          IEND_BYTES) ∧
      idCodec.inflate ((fun b => b) ([] : Bytes)) = .ok [] :=
  C2_roundtrip idCodec crc0 (fun b => b) (fun b => b) ihdrZero [] []
    (fun _ => rfl) (fun _ => rfl) (fun _ => rfl) (fun _ => rfl)
    wfChunk_ihdrZero rfl (by intro ch hm; cases hm)
    rfl (by decide) (by decide)
